import Mathlib

/-!
Verification of the text-processing core of the LiteReviewer repository.

Python strings are embedded as `List Char` (`Str`); every function below is a
direct translation of the corresponding Python function in `src/scripts/`,
keeping the source's names.  Machine integers are `Nat`/`Int` (Python ints are
unbounded, so no modular arithmetic is required).  Python functions that can
raise are embedded as `Option`-returning functions where the claim depends on
the exception behaviour.
-/

namespace LiteReviewer

/-- Embedded Python string: a list of characters. -/
abbrev Str := List Char

/-- Coerce a Lean string literal into the embedding. -/
def str (s : String) : Str := s.data

/-- Python `str.isspace` class used by `str.strip()` / `lstrip()` (the ASCII
whitespace characters; the inputs in this development are ASCII). -/
def isPySpace (c : Char) : Bool :=
  c = ' ' || c = '\t' || c = '\n' || c = '\r' || c = '\x0b' || c = '\x0c'

/-- Python `s.lstrip()`. -/
def pyLstrip (s : Str) : Str := s.dropWhile isPySpace

/-- Python `s.rstrip()`. -/
def pyRstrip (s : Str) : Str := (s.reverse.dropWhile isPySpace).reverse

/-- Python `s.strip()`. -/
def pyStrip (s : Str) : Str := pyRstrip (pyLstrip s)

/-- Python `s.startswith(pre)` on the embedding. -/
def startsWithL (pre s : Str) : Bool := List.isPrefixOf pre s

/-- Python `s[i:j]` (slice, clamped to the string bounds). -/
def slice (s : Str) (i j : Nat) : Str := (s.drop i).take (j - i)

/-- Worker for `splitlinesPy`: accumulates the current line (reversed). -/
def splitlinesGo : Str → Str → List Str
  | [], cur => if cur = [] then [] else [cur.reverse]
  | '\n' :: rest, cur => cur.reverse :: splitlinesGo rest []
  | '\r' :: '\n' :: rest, cur => cur.reverse :: splitlinesGo rest []
  | '\r' :: rest, cur => cur.reverse :: splitlinesGo rest []
  | c :: rest, cur => splitlinesGo rest (c :: cur)

/-- Python `s.splitlines()` restricted to the `\n`, `\r\n` and `\r`
terminators (the terminators that occur in diff texts); no trailing empty
line, and `"".splitlines() = []`, as in Python. -/
def splitlinesPy (s : Str) : List Str := splitlinesGo s []

/-- Maximal run of decimal digits at the front, as in `\d+`. -/
def takeDigits (s : Str) : Str × Str := s.span (fun c => c.isDigit)

/-- Numeric value of a digit string. -/
def digitsToNat (ds : Str) : Nat :=
  ds.foldl (fun acc c => acc * 10 + (c.toNat - '0'.toNat)) 0

/-- Match a literal at the front of the input, returning the remainder. -/
def litMatch (lit s : Str) : Option Str :=
  if startsWithL lit s then some (s.drop lit.length) else none

/-- One-or-more digits (`\d+`), with value. -/
def numTok (s : Str) : Option (Nat × Str) :=
  match takeDigits s with
  | ([], _) => none
  | (ds, rest) => some (digitsToNat ds, rest)

/-- The optional `(?:,(\d+))?` group of the hunk-header regex. -/
def optCommaNum (s : Str) : Option Nat × Str :=
  match s with
  | ',' :: rest =>
    match numTok rest with
    | some (n, r) => (some n, r)
    | none => (none, s)
  | _ => (none, s)

/-- `HUNK_RE.match` / `HEADER_RE.match` of
`^@@ -(\d+)(?:,(\d+))? \+(\d+)(?:,(\d+))? @@` (src/scripts/diff_extractor.py
line 10, src/scripts/collect_data.py line 70): anchored at the start, trailing
text after the closing `@@` is allowed.  Returns the four captured groups. -/
def hunkReMatch (s : Str) : Option (Nat × Option Nat × Nat × Option Nat) :=
  match litMatch (str "@@ -") s with
  | none => none
  | some r1 =>
    match numTok r1 with
    | none => none
    | some (a, r2) =>
      let (b, r3) := optCommaNum r2
      match litMatch (str " +") r3 with
      | none => none
      | some r4 =>
        match numTok r4 with
        | none => none
        | some (c, r5) =>
          let (d, r6) := optCommaNum r5
          match litMatch (str " @@") r6 with
          | none => none
          | some _ => some (a, b, c, d)

/-- One classified body line of a hunk: the dict
`{"tag": .., "text": .., "old": .., "new": ..}` built by `parse_diff_hunk`
(src/scripts/diff_extractor.py lines 77-102). -/
structure DiffLine where
  tag : Char
  text : Str
  old : Option Nat
  new : Option Nat
deriving DecidableEq, Repr

/-- The dict returned by `parse_diff_hunk` (src/scripts/diff_extractor.py
lines 104-111). -/
structure Hunk where
  header : Str
  old_start : Nat
  old_len : Nat
  new_start : Nat
  new_len : Nat
  lines : List DiffLine
deriving DecidableEq, Repr

/-- The body loop of `parse_diff_hunk` (src/scripts/diff_extractor.py lines
77-102): classify each line after the header, advancing the old/new counters.
An empty physical line and a line starting with any character other than
`+`/`-`/space are both recorded as context with tag `' '`. -/
def processBody : List Str → Nat → Nat → List DiffLine
  | [], _, _ => []
  | raw :: rest, o, n =>
    match raw with
    | [] => ⟨' ', [], some o, some n⟩ :: processBody rest (o + 1) (n + 1)
    | t :: tr =>
      if t = '+' then ⟨'+', tr, none, some n⟩ :: processBody rest o (n + 1)
      else if t = '-' then ⟨'-', tr, some o, none⟩ :: processBody rest (o + 1) n
      else if t = ' ' then ⟨' ', tr, some o, some n⟩ :: processBody rest (o + 1) (n + 1)
      else ⟨' ', t :: tr, some o, some n⟩ :: processBody rest (o + 1) (n + 1)

/-- The header-search loop of `parse_diff_hunk` (src/scripts/diff_extractor.py
lines 58-64): first line starting with `@@`, together with the lines after it. -/
def findHeaderSplit : List Str → Option (Str × List Str)
  | [] => none
  | l :: ls => if startsWithL (str "@@") l then some (l, ls) else findHeaderSplit ls

/-- `parse_diff_hunk` (src/scripts/diff_extractor.py lines 48-111).  `none`
models the Python `return None`. -/
def parse_diff_hunk (diff_text : Str) : Option Hunk :=
  if diff_text = [] then none
  else
    match findHeaderSplit (splitlinesPy diff_text) with
    | none => none
    | some (hl, rest) =>
      match hunkReMatch (pyStrip hl) with
      | none => none
      | some (a, b, c, d) =>
        some { header := hl
               old_start := a
               old_len := b.getD 1
               new_start := c
               new_len := d.getD 1
               lines := processBody rest a c }

/-- The header line `parse_diff_hunk` operates on, if any: first line of the
input that starts with `@@`. -/
def header_line_of (t : Str) : Option Str :=
  (findHeaderSplit (splitlinesPy t)).map (·.1)

/-- Python `"\n".join(lines)`. -/
def joinNl (ls : List Str) : Str := List.intercalate (str "\n") ls

/-- The accumulation loop of `split_hunks` (src/scripts/diff_extractor.py
lines 120-129): start a new chunk at each line beginning with `@@`, except
that the very first lines (before any header) stay in the first chunk. -/
def splitHunksGo : List Str → List Str → List Str
  | [], cur => if cur = [] then [] else [joinNl cur]
  | l :: ls, cur =>
    if startsWithL (str "@@") l ∧ cur ≠ [] then joinNl cur :: splitHunksGo ls [l]
    else splitHunksGo ls (cur ++ [l])

/-- `split_hunks` (src/scripts/diff_extractor.py lines 113-130). -/
def split_hunks (patch : Str) : List Str :=
  if patch = [] then [] else splitHunksGo (splitlinesPy patch) []

/-- One step of the live loop of `build_unified_position_table`
(src/scripts/diff_extractor.py lines 160-172): every body line advances the
running position; an Added/Context line with a new-line number is recorded
the first time that number is seen.  The table is the association list in
insertion order (modelling the Python dict). -/
def posStep (st : List (Nat × Nat) × Nat) (ln : DiffLine) : List (Nat × Nat) × Nat :=
  let pos := st.2 + 1
  let tbl :=
    if ln.tag = '+' ∨ ln.tag = ' ' then
      match ln.new with
      | some nn => if (List.lookup nn st.1).isSome then st.1 else st.1 ++ [(nn, pos)]
      | none => st.1
    else st.1
  (tbl, pos)

/-- All body lines of the parsed hunks of a patch, in patch order (the lines
the live loop of `build_unified_position_table` walks; unparseable chunks are
skipped and do not advance the position counter). -/
def allPatchLines (patch : Str) : List DiffLine :=
  (((split_hunks patch).filterMap parse_diff_hunk).map (·.lines)).flatten

/-- `build_unified_position_table` (src/scripts/diff_extractor.py lines
132-173).  The first loop of the source (lines 142-155) is dead code: its
results are discarded by `pos_table.clear()` and `pos = 0` (lines 160-161),
so only the second loop is modelled. -/
def build_unified_position_table (patch : Str) : List (Nat × Nat) :=
  if patch = [] then [] else ((allPatchLines patch).foldl posStep ([], 0)).1

/-- `new_if_add` inside `absolute_new_line` (src/scripts/review_generator.py
lines 203-204): the new-line number of an Added entry, as a Python int. -/
def new_if_add (e : DiffLine) : Option Int :=
  if e.tag = '+' then e.new.map Int.ofNat else none

/-- Strategy A of `absolute_new_line` (src/scripts/review_generator.py lines
206-220): treat the reference as a 1-based index into the `+`/`-` sublist,
then search forward and backward for an Added anchor. -/
def stratA (plus_minus : List DiffLine) (a : Nat) : Option Int :=
  if plus_minus ≠ [] ∧ a ≤ plus_minus.length then
    match (plus_minus.drop (a - 1)).head? with
    | some e =>
      match new_if_add e with
      | some nl => some nl
      | none =>
        match (plus_minus.drop a).findSome? new_if_add with
        | some nl => some nl
        | none => ((plus_minus.take (a - 1)).reverse).findSome? new_if_add
    | none => none
  else none

/-- `absolute_new_line` (src/scripts/review_generator.py lines 182-239).  The
model reference is `Option Int`: `none` models any Python value that is not
an `int` (`None`, a string such as `"3"`, ...), matching the
`isinstance(approx_line, int)` guard.  Hunk fields are the parsed `Nat`
values, so the `isinstance` checks on `new_start`/`new_len` are true. -/
def absolute_new_line (h : Hunk) (approx_line : Option Int) : Option Int :=
  match approx_line with
  | none => none
  | some al =>
    if al < 1 then none
    else
      let new_end : Int := Int.ofNat h.new_start + max 0 (Int.ofNat h.new_len) - 1
      let plus_minus := h.lines.filter (fun e => e.tag = '+' ∨ e.tag = '-')
      match stratA plus_minus al.toNat with
      | some v => some v
      | none =>
        if Int.ofNat h.new_start ≤ al ∧ al ≤ new_end then some al
        else
          let candidate : Int := Int.ofNat h.new_start + (al - 1)
          if Int.ofNat h.new_start ≤ candidate ∧ candidate ≤ new_end then some candidate
          else h.lines.findSome? new_if_add

/-- `clamp_line` (src/scripts/collect_data.py lines 62-63):
`max(lo, min(num, hi))`, written with conditionals. -/
def clamp_line (num lo hi : Nat) : Nat :=
  if lo ≤ (if num ≤ hi then num else hi) then (if num ≤ hi then num else hi) else lo

/-- `MAX_DEF_BLOCK_LINES` (src/scripts/collect_data.py line 15). -/
def MAX_DEF_BLOCK_LINES : Nat := 300

/-- Indentation depth `len(li) - len(li.lstrip())` used by
`extract_block_definition`. -/
def indentOf (l : Str) : Nat := l.length - (pyLstrip l).length

/-- Backward scan of `extract_block_definition` (src/scripts/collect_data.py
lines 153-176): nearest line at or above the 0-based index whose stripped
text satisfies the predicate, with its index and indentation. -/
def findBack (p : Str → Bool) (ls : List Str) : Nat → Option (Nat × Nat)
  | 0 =>
    let l0 := ls.getD 0 []
    if p l0 then some (0, indentOf l0) else none
  | i + 1 =>
    let li := ls.getD (i + 1) []
    if p li then some (i + 1, indentOf li) else findBack p ls i

/-- A line opening a function-like definition: `stripped.startswith("def ")`. -/
def isDefLine (l : Str) : Bool := startsWithL (str "def ") (pyLstrip l)

/-- A line opening a class-like container: `stripped.startswith("class ")`. -/
def isClassLine (l : Str) : Bool := startsWithL (str "class ") (pyLstrip l)

/-- Forward scan of `extract_block_definition` (src/scripts/collect_data.py
lines 187-199): extend the block over blank lines, deeper-indented lines and
decorator lines, returning the final 0-based `end_idx`. -/
def fwdLoop (ls : List Str) (aind : Nat) : Nat → Nat → Nat
  | k, end_idx =>
    if k < ls.length then
      if pyStrip (ls.getD k []) = [] then fwdLoop ls aind (k + 1) k
      else if indentOf (ls.getD k []) ≤ aind ∧
          ¬ startsWithL (str "@") (pyLstrip (ls.getD k [])) then end_idx
      else fwdLoop ls aind (k + 1) k
    else end_idx
termination_by k _ => ls.length - k
decreasing_by all_goals omega

/-- Lines 187-204 of `extract_block_definition`: run the forward scan from
the located definition start, slice the block, bound its size, join. -/
def buildBlock (old_lines : List Str) (anchor_start anchor_indent : Nat) : Option Str :=
  let end_idx := fwdLoop old_lines anchor_indent (anchor_start + 1) anchor_start
  let block := (old_lines.drop anchor_start).take (end_idx + 1 - anchor_start)
  if MAX_DEF_BLOCK_LINES < block.length then none else some (joinNl block)

/-- `extract_block_definition` (src/scripts/collect_data.py lines 145-204).
The anchor is a 1-based line number; the result is the joined block, `none`
modelling the Python `return None` (no enclosing definition, or a block
longer than `MAX_DEF_BLOCK_LINES`). -/
def extract_block_definition (old_lines : List Str) (anchor_line : Nat) : Option Str :=
  if old_lines = [] then none
  else
    match (match findBack isDefLine old_lines (clamp_line anchor_line 1 old_lines.length - 1) with
      | some r => some r
      | none =>
        findBack isClassLine old_lines (clamp_line anchor_line 1 old_lines.length - 1)) with
    | none => none
    | some (anchor_start, anchor_indent) => buildBlock old_lines anchor_start anchor_indent

/-- A filtered review comment as consumed by the grouping stage of
`scrape_examples_from_single_pr` (src/scripts/collect_data.py lines 252-323):
only the fields the grouping and emission decisions read (the emitted example
record additionally carries network-derived fields, which are outside this
core). -/
structure RComment where
  path : Str
  diff_hunk : Str
  body : Str
deriving DecidableEq, Repr

/-- Header extraction used for the grouping key (src/scripts/collect_data.py
lines 258-262 and 278-282): first line of the attached diff text whose
stripped form starts with `@@`, stripped. -/
def header_of_hunk (diff_hunk : Str) : Option Str :=
  ((splitlinesPy diff_hunk).find? (fun ln => startsWithL (str "@@") (pyStrip ln))).map pyStrip

/-- The grouping key `(file_path, header_line)` (src/scripts/collect_data.py
line 263). -/
def groupKey (c : RComment) : Str × Option Str := (c.path, header_of_hunk c.diff_hunk)

/-- Size of the group a key belongs to, over the filtered list. -/
def countKey (filtered : List RComment) (k : Str × Option Str) : Nat :=
  (filtered.filter (fun c => groupKey c = k)).length

/-- The emission loop of `scrape_examples_from_single_pr`
(src/scripts/collect_data.py lines 270-323): walk the filtered comments in
order, stop once `max_needed` examples are out, and keep exactly the comments
whose key belongs to a singleton group. -/
def emitLoop (all : List RComment) (mx : Nat) : List RComment → Nat → List RComment
  | [], _ => []
  | c :: rest, cnt =>
    if mx ≤ cnt then []
    else
      if countKey all (groupKey c) = 1 then c :: emitLoop all mx rest (cnt + 1)
      else emitLoop all mx rest cnt

/-- Steps 2-4 of `scrape_examples_from_single_pr` (src/scripts/collect_data.py
lines 252-323): group the already-filtered comments by `(path, header)`,
keep singleton groups, and emit at most `max_needed` comments in input order. -/
def scrape_retained (filtered : List RComment) (max_needed : Nat) : List RComment :=
  emitLoop filtered max_needed filtered 0

/-! ### Python `json` modelling

`json.loads` / `json.dumps` are the strict-parse and string-serialisation
collaborators of `parse_model_json_strict` (src/scripts/review_generator.py).
They are modelled on the embedding: values cover the JSON grammar accepted by
Python (objects, arrays, strings with escapes, integers, floats kept as raw
tokens, the `NaN`/`Infinity` constants); parsing recurses on a fuel counter
large enough for any input. -/

/-- A Python-decoded JSON value.  Floats never need their numeric value in
this development, so they keep their raw token. -/
inductive JValue where
  | null
  | jbool (b : Bool)
  | jint (n : Int)
  | jfloat (raw : Str)
  | jstr (s : Str)
  | jarr (xs : List JValue)
  | jobj (fields : List (Str × JValue))
deriving Repr

/-- JSON whitespace as in Python's decoder (` \t\n\r`). -/
def isJsonWs (c : Char) : Bool := c = ' ' || c = '\t' || c = '\n' || c = '\r'

/-- Value of a hexadecimal digit. -/
def hexVal (c : Char) : Option Nat :=
  if '0' ≤ c ∧ c ≤ '9' then some (c.toNat - '0'.toNat)
  else if 'a' ≤ c ∧ c ≤ 'f' then some (c.toNat - 'a'.toNat + 10)
  else if 'A' ≤ c ∧ c ≤ 'F' then some (c.toNat - 'A'.toNat + 10)
  else none

/-- Four hexadecimal digits, as in a `\uXXXX` escape. -/
def hex4 (a b c d : Char) : Option Nat :=
  match hexVal a, hexVal b, hexVal c, hexVal d with
  | some x, some y, some z, some w => some (((x * 16 + y) * 16 + z) * 16 + w)
  | _, _, _, _ => none

/-- Prepend a decoded character to a string-parse result. -/
def consR (c : Char) (r : Option (Str × Str)) : Option (Str × Str) :=
  r.map (fun p => (c :: p.1, p.2))

/-- If the input starts with a `\uXXXX` escape of a low surrogate, its value
and the remainder. -/
def lowSur : Str → Option (Nat × Str)
  | '\\' :: 'u' :: e :: f :: g :: hh :: r2 =>
    match hex4 e f g hh with
    | some m => if 0xDC00 ≤ m ∧ m < 0xE000 then some (m, r2) else none
    | none => none
  | _ => none

/-- Body of a JSON string after the opening quote: decoded text and remainder.
Escapes follow Python's decoder; a surrogate pair combines, and a lone
surrogate (which Python would keep as a lone surrogate code unit, not
representable in `Char`) becomes U+FFFD.  Unescaped control characters are
rejected (strict mode).  Fuel makes the recursion structural; every step
consumes at least one character, so callers pass `length + 1`. -/
def parseStringBody : Nat → Str → Option (Str × Str)
  | 0, _ => none
  | Nat.succ fl, cs =>
    match cs with
    | [] => none
    | '"' :: rest => some ([], rest)
    | '\\' :: rest =>
      match rest with
      | '"' :: r => consR '"' (parseStringBody fl r)
      | '\\' :: r => consR '\\' (parseStringBody fl r)
      | '/' :: r => consR '/' (parseStringBody fl r)
      | 'b' :: r => consR '\x08' (parseStringBody fl r)
      | 'f' :: r => consR '\x0c' (parseStringBody fl r)
      | 'n' :: r => consR '\n' (parseStringBody fl r)
      | 'r' :: r => consR '\r' (parseStringBody fl r)
      | 't' :: r => consR '\t' (parseStringBody fl r)
      | 'u' :: a :: b :: c :: d :: r =>
        match hex4 a b c d with
        | none => none
        | some n =>
          if 0xD800 ≤ n ∧ n < 0xDC00 then
            match lowSur r with
            | some (m, r2) =>
              consR (Char.ofNat (0x10000 + (n - 0xD800) * 0x400 + (m - 0xDC00)))
                (parseStringBody fl r2)
            | none => consR '�' (parseStringBody fl r)
          else if 0xDC00 ≤ n ∧ n < 0xE000 then consR '�' (parseStringBody fl r)
          else consR (Char.ofNat n) (parseStringBody fl r)
      | _ => none
    | c :: rest => if c.toNat < 0x20 then none else consR c (parseStringBody fl rest)

/-- The integer part `(?:0|[1-9]\d+'*'...)` of Python's `NUMBER_RE`: a lone `0`
or a nonzero digit followed by digits. -/
def parseIntPart : Str → Option (Str × Str)
  | '0' :: r => some (['0'], r)
  | c :: r =>
    if c.isDigit ∧ c ≠ '0' then
      match takeDigits r with
      | (ds, rest) => some (c :: ds, rest)
    else none
  | [] => none

/-- The optional fraction group `(\.\d+)?`. -/
def parseFrac : Str → Str × Str
  | '.' :: r =>
    match takeDigits r with
    | ([], _) => ([], '.' :: r)
    | (ds, rest) => ('.' :: ds, rest)
  | s => ([], s)

/-- The optional exponent group `([eE][-+]?\d+)?`. -/
def parseExp : Str → Str × Str
  | c :: r =>
    if c = 'e' ∨ c = 'E' then
      match r with
      | s :: r2 =>
        if s = '+' ∨ s = '-' then
          match takeDigits r2 with
          | ([], _) => ([], c :: r)
          | (ds, rest) => (c :: s :: ds, rest)
        else
          match takeDigits r with
          | ([], _) => ([], c :: r)
          | (ds, rest) => (c :: ds, rest)
      | [] => ([], [c])
    else ([], c :: r)
  | [] => ([], [])

/-- Assemble a matched number: an integer when no fraction/exponent group
matched, otherwise a float token. -/
def finishNum (neg : Bool) (ds : Str) (r1 : Str) : JValue × Str :=
  let (fr, r2) := parseFrac r1
  let (ex, r3) := parseExp r2
  if fr = [] ∧ ex = [] then
    let v : Int := Int.ofNat (digitsToNat ds)
    (JValue.jint (if neg then -v else v), r3)
  else (JValue.jfloat ((if neg then ['-'] else []) ++ ds ++ fr ++ ex), r3)

/-- A JSON number per Python's `NUMBER_RE`. -/
def parseNumber : Str → Option (JValue × Str)
  | '-' :: r =>
    match parseIntPart r with
    | none => none
    | some (ds, r1) => some (finishNum true ds r1)
  | s =>
    match parseIntPart s with
    | none => none
    | some (ds, r1) => some (finishNum false ds r1)

mutual

/-- One JSON value at the front of the input (whitespace already skipped),
with remainder; `none` models a `JSONDecodeError`.  Fuel makes the mutual
recursion structural; `json_loads` supplies more fuel than any input needs. -/
def parseVal : Nat → Str → Option (JValue × Str)
  | 0, _ => none
  | Nat.succ f, cs =>
    match cs with
    | '"' :: rest => (parseStringBody (rest.length + 1) rest).map (fun p => (JValue.jstr p.1, p.2))
    | '\x7b' :: rest =>
      let r1 := rest.dropWhile isJsonWs
      match r1 with
      | '\x7d' :: r2 => some (JValue.jobj [], r2)
      | _ => (parseObjItems f r1).map (fun p => (JValue.jobj p.1, p.2))
    | '[' :: rest =>
      let r1 := rest.dropWhile isJsonWs
      match r1 with
      | ']' :: r2 => some (JValue.jarr [], r2)
      | _ => (parseArrItems f r1).map (fun p => (JValue.jarr p.1, p.2))
    | _ =>
      if startsWithL (str "null") cs then some (JValue.null, cs.drop 4)
      else if startsWithL (str "true") cs then some (JValue.jbool true, cs.drop 4)
      else if startsWithL (str "false") cs then some (JValue.jbool false, cs.drop 5)
      else if startsWithL (str "NaN") cs then some (JValue.jfloat (str "NaN"), cs.drop 3)
      else if startsWithL (str "Infinity") cs then some (JValue.jfloat (str "Infinity"), cs.drop 8)
      else if startsWithL (str "-Infinity") cs then some (JValue.jfloat (str "-Infinity"), cs.drop 9)
      else parseNumber cs

/-- Elements of a non-empty JSON array (opening bracket and leading
whitespace consumed). -/
def parseArrItems : Nat → Str → Option (List JValue × Str)
  | 0, _ => none
  | Nat.succ f, cs =>
    match parseVal f cs with
    | none => none
    | some (v, r) =>
      match r.dropWhile isJsonWs with
      | ',' :: r2 =>
        match parseArrItems f (r2.dropWhile isJsonWs) with
        | none => none
        | some (vs, r3) => some (v :: vs, r3)
      | ']' :: r2 => some ([v], r2)
      | _ => none

/-- Members of a non-empty JSON object (opening brace and leading whitespace
consumed); keys must be strings, as in JSON. -/
def parseObjItems : Nat → Str → Option (List (Str × JValue) × Str)
  | 0, _ => none
  | Nat.succ f, cs =>
    match cs with
    | '"' :: rest =>
      match parseStringBody (rest.length + 1) rest with
      | none => none
      | some (k, r) =>
        match r.dropWhile isJsonWs with
        | ':' :: r2 =>
          match parseVal f (r2.dropWhile isJsonWs) with
          | none => none
          | some (v, r3) =>
            match r3.dropWhile isJsonWs with
            | ',' :: r5 =>
              match parseObjItems f (r5.dropWhile isJsonWs) with
              | none => none
              | some (fs, r6) => some ((k, v) :: fs, r6)
            | '\x7d' :: r5 => some ([(k, v)], r5)
            | _ => none
        | _ => none
    | _ => none

end

/-- Python `json.loads`: one value, surrounded only by whitespace. -/
def json_loads (s : Str) : Option JValue :=
  match parseVal (2 * s.length + 2) (s.dropWhile isJsonWs) with
  | some (v, r) => if r.dropWhile isJsonWs = [] then some v else none
  | none => none

/-- Lowercase hexadecimal digit. -/
def hexDigitL (n : Nat) : Char :=
  if n < 10 then Char.ofNat ('0'.toNat + n) else Char.ofNat ('a'.toNat + n - 10)

/-- Four lowercase hexadecimal digits, as in Python's `\u%04x`. -/
def hex4Str (n : Nat) : Str :=
  [hexDigitL (n / 4096 % 16), hexDigitL (n / 256 % 16), hexDigitL (n / 16 % 16), hexDigitL (n % 16)]

/-- Escape one character as Python `json.dumps` (default `ensure_ascii=True`)
does: short escapes for the common controls, `\uXXXX` for other controls and
all non-ASCII (surrogate pairs above U+FFFF). -/
def dumpChar (c : Char) : Str :=
  if c = '"' then ['\\', '"']
  else if c = '\\' then ['\\', '\\']
  else if c = '\n' then ['\\', 'n']
  else if c = '\r' then ['\\', 'r']
  else if c = '\t' then ['\\', 't']
  else if c = '\x08' then ['\\', 'b']
  else if c = '\x0c' then ['\\', 'f']
  else if c.toNat < 0x20 ∨ 0x7f ≤ c.toNat then
    if c.toNat < 0x10000 then '\\' :: 'u' :: hex4Str c.toNat
    else
      let v := c.toNat - 0x10000
      ('\\' :: 'u' :: hex4Str (0xD800 + v / 0x400)) ++ ('\\' :: 'u' :: hex4Str (0xDC00 + v % 0x400))
  else [c]

/-- Python `json.dumps` applied to a string value. -/
def json_dumps (s : Str) : Str := '"' :: (s.map dumpChar).flatten ++ ['"']

/-! ### `parse_model_json_strict` and its repair stages
(src/scripts/review_generator.py lines 26-117) -/

/-- `ALLOWED_TYPES` (src/scripts/review_generator.py line 27). -/
def ALLOWED_TYPES : List Str :=
  [str "STYLE", str "LOGIC", str "DOCUMENTATION", str "SECURITY", str "PERFORMANCE", str "OTHER"]

/-- Python-dict lookup on the parsed member list: the last occurrence of a
duplicate key wins, as when `json.loads` builds the dict. -/
def lookupStr : List (Str × JValue) → Str → Option JValue
  | [], _ => none
  | (k', v) :: rest, k =>
    match lookupStr rest k with
    | some v' => some v'
    | none => if k' = k then some v else none

/-- Python `o.get(key)`: `None` both when the key is missing and when its
value is JSON `null` (Python maps `null` to `None`). -/
def pyGet (fields : List (Str × JValue)) (k : Str) : Option JValue :=
  match lookupStr fields k with
  | some JValue.null => none
  | r => r

/-- The category normalisation of `_normalize_types`
(src/scripts/review_generator.py lines 80-86), applied to the raw value of
the `type` key (`none` when the key is missing, which defaults to `"OTHER"`):
a string is stripped, upper-cased (ASCII, as all relevant inputs are) and
checked against `ALLOWED_TYPES`; anything else coerces to `OTHER`. -/
def normType (v : Option JValue) : Str :=
  match v with
  | some (JValue.jstr s) =>
    let u := (pyStrip s).map Char.toUpper
    if ALLOWED_TYPES.contains u then u else str "OTHER"
  | some _ => str "OTHER"
  | none => str "OTHER"

/-- One normalised comment `{"line": .., "type": .., "comment": ..}` as built
by `_normalize_types` (src/scripts/review_generator.py line 86). -/
structure NormComment where
  line : Option JValue
  ctype : Str
  comment : Option JValue
deriving Repr

/-- `_normalize_types` (src/scripts/review_generator.py lines 75-87).  `none`
models the `AttributeError` raised by `o.get` when a list element is not a
dict (the callers catch it together with the parse errors). -/
def _normalize_types (objs : List JValue) : Option (List NormComment) :=
  objs.mapM fun o =>
    match o with
    | JValue.jobj fields =>
      some ⟨pyGet fields (str "line"), normType (lookupStr fields (str "type")),
        pyGet fields (str "comment")⟩
    | _ => none

/-- One strict-parse stage of `parse_model_json_strict`: `json.loads`
succeeding with a list, followed by `_normalize_types`.  `none` models every
way the stage can fall through: a parse error, a non-list result, or an
`AttributeError` inside `_normalize_types` — all caught by the same
`except`. -/
def stageResult (s : Str) : Option (List NormComment) :=
  match json_loads s with
  | some (JValue.jarr xs) => _normalize_types xs
  | _ => none

/-- The backtick character. -/
def bq : Char := '\x60'

/-- Python `s.strip(c)` for a single strip character. -/
def stripChar (c : Char) (s : Str) : Str :=
  ((s.dropWhile (· = c)).reverse.dropWhile (· = c)).reverse

/-- Worker for `findSubFrom`: first offset where `sub` occurs. -/
def findSubGo (sub : Str) : Str → Nat → Option Nat
  | [], j => if sub = [] then some j else none
  | s, j =>
    if startsWithL sub s then some j
    else
      match s with
      | [] => none
      | _ :: rest => findSubGo sub rest (j + 1)

/-- Python `s.find(sub, i)`: first index `≥ i` where `sub` occurs (`none`
for `-1`). -/
def findSubFrom (s sub : Str) (i : Nat) : Option Nat := findSubGo sub (s.drop i) i

/-- Python `s.rfind(c)` for a single character (`none` for `-1`). -/
def rfindChar (c : Char) (s : Str) : Option Nat :=
  match findSubGo [c] s.reverse 0 with
  | some ri => some (s.length - 1 - ri)
  | none => none

/-- `_strip_code_fences` (src/scripts/review_generator.py lines 29-36). -/
def _strip_code_fences (s : Str) : Str :=
  let s1 := pyStrip s
  if startsWithL [bq, bq, bq] s1 then
    let s2 := stripChar bq s1
    match findSubFrom s2 (str "[") 0 with
    | some i => s2.drop i
    | none => s2
  else s1

/-- `_isolate_first_json_array` (src/scripts/review_generator.py lines
38-45). -/
def _isolate_first_json_array (s : Str) : Str :=
  match findSubFrom s (str "[") 0 with
  | none => s
  | some start =>
    match rfindChar ']' s with
    | none => s.drop start
    | some e => if e ≤ start then s.drop start else slice s start (e + 1)

/-- Python regex `\s` for `str` patterns (ASCII part). -/
def isPyRegexSpace (c : Char) : Bool :=
  c = ' ' || c = '\t' || c = '\n' || c = '\r' || c = '\x0b' || c = '\x0c'

/-- After a `\x7d`, does `\s*,` match (first non-space is a comma)? -/
def wsThenComma : Str → Bool
  | [] => false
  | c :: r => if c = ',' then true else if isPyRegexSpace c then wsThenComma r else false

/-- After a `\x7d`, does `\s*\n` match (a newline inside the whitespace
run)? -/
def wsRunHasNl : Str → Bool
  | [] => false
  | c :: r => if c = '\n' then true else if isPyRegexSpace c then wsRunHasNl r else false

/-- `re.search` of `\x7d\s*,`: offset of the leftmost closing brace followed
by optional whitespace and a comma. -/
def findBraceComma : Str → Nat → Option Nat
  | [], _ => none
  | '\x7d' :: r, j => if wsThenComma r then some j else findBraceComma r (j + 1)
  | _ :: r, j => findBraceComma r (j + 1)

/-- `re.search` of `\x7d\s*\]?`: since the bracket is optional, the leftmost
closing brace. -/
def findBraceAny : Str → Nat → Option Nat
  | [], _ => none
  | '\x7d' :: _, j => some j
  | _ :: r, j => findBraceAny r (j + 1)

/-- `re.search` of `\x7d\s*\n`: leftmost closing brace whose following
whitespace run contains a newline. -/
def findBraceNl : Str → Nat → Option Nat
  | [], _ => none
  | '\x7d' :: r, j => if wsRunHasNl r then some j else findBraceNl r (j + 1)
  | _ :: r, j => findBraceNl r (j + 1)

/-- The scan loop of `_fix_type_concat_bug` (src/scripts/review_generator.py
lines 47-73): locate each `"type` occurrence; when it is not followed by a
closing quote, bound the malformed span by the nearest of the three
object-end patterns (or `len(s)-1`), strip the captured text and re-emit it
as `"type": "OTHER", "comment": <json string>`.  The fuel exceeds the number
of loop iterations (the cursor advances by at least five per iteration). -/
def fixGo : Nat → Str → Nat → Str → Str
  | 0, s, i, out => out ++ s.drop i
  | Nat.succ f, s, i, out =>
    match findSubFrom s (str "\"type") i with
    | none => out ++ s.drop i
    | some j =>
      let out1 := out ++ slice s i j
      let k := j + 5
      if k < s.length ∧ s.getD k ' ' ≠ '"' then
        let tail := s.drop k
        let cands :=
          ([findBraceComma tail 0, findBraceAny tail 0, findBraceNl tail 0].filterMap id).map
            (k + ·)
        let obj_end :=
          match cands with
          | [] => s.length - 1
          | c :: cr => cr.foldl Nat.min c
        let accidental := pyStrip (slice s k obj_end)
        let repl := str "\"type\": \"OTHER\", \"comment\": " ++ json_dumps accidental
        fixGo f s obj_end (out1 ++ repl)
      else fixGo f s (j + 6) (out1 ++ slice s j (j + 6))

/-- `_fix_type_concat_bug` (src/scripts/review_generator.py lines 47-73). -/
def _fix_type_concat_bug (s : Str) : Str := fixGo (s.length + 1) s 0 []

/-- The input handed to the stage-3 retry: stage 2's fence stripping and
array isolation applied to the raw text (src/scripts/review_generator.py
lines 98-99). -/
def stage13 (raw : Str) : Str := _isolate_first_json_array (_strip_code_fences raw)

/-- `parse_model_json_strict` (src/scripts/review_generator.py lines 89-116):
strict parse, retry on the isolated array, retry after the `type`-concat
repair; every failure mode of a stage (parse error, non-list, or
normalisation error) falls through, and total failure returns
`([], True)` — the function never raises. -/
def parse_model_json_strict (raw : Str) : List NormComment × Bool :=
  match stageResult raw with
  | some l => (l, false)
  | none =>
    match stageResult (stage13 raw) with
    | some l => (l, false)
    | none =>
      match stageResult (_fix_type_concat_bug (stage13 raw)) with
      | some l => (l, false)
      | none => ([], true)

/-! ### Spec-side definitions

The quantities the claims speak about (minima/maxima of line numbers, the
record sequence behind the position table, containment of a substring), and
the concrete inputs used by counterexamples and witnesses. -/

/-- `[s, s+1, ..., s+k-1]`: the shape taken by the old/new counters of
`parse_diff_hunk`. -/
def rangeL : Nat → Nat → List Nat
  | _, 0 => []
  | s, k + 1 => s :: rangeL (s + 1) k

/-- Minimum of a list of naturals (`none` when empty). -/
def minL : List Nat → Option Nat
  | [] => none
  | a :: rest =>
    match minL rest with
    | none => some a
    | some b => some (if a ≤ b then a else b)

/-- Maximum of a list of naturals (`none` when empty). -/
def maxL : List Nat → Option Nat
  | [] => none
  | a :: rest =>
    match maxL rest with
    | none => some a
    | some b => some (if a ≤ b then b else a)

/-- The old line numbers carried by the Removed/Context lines of a hunk body,
in order. -/
def oldNums : List DiffLine → List Nat
  | [] => []
  | e :: l => if e.tag = '-' ∨ e.tag = ' ' then e.old.toList ++ oldNums l else oldNums l

/-- The new line numbers carried by the Added/Context lines of a hunk body,
in order. -/
def newNums : List DiffLine → List Nat
  | [] => []
  | e :: l => if e.tag = '+' ∨ e.tag = ' ' then e.new.toList ++ newNums l else newNums l

/-- Number of body lines `parse_diff_hunk` classifies as Removed or Context
(everything but `+` lines). -/
def rcCount : List Str → Nat
  | [] => 0
  | [] :: rest => rcCount rest + 1
  | (t :: _) :: rest => if t = '+' then rcCount rest else rcCount rest + 1

/-- Number of body lines `parse_diff_hunk` classifies as Added or Context
(everything but `-` lines). -/
def acCount : List Str → Nat
  | [] => 0
  | [] :: rest => acCount rest + 1
  | (t :: _) :: rest => if t = '-' then acCount rest else acCount rest + 1

/-- Does a normalised comment's text contain the given substring? -/
def commentContains (nc : NormComment) (sub : Str) : Bool :=
  match nc.comment with
  | some (JValue.jstr s) => (findSubFrom s sub 0).isSome
  | _ => false

/-- Insert a record into the position table only when its key is absent —
the dict update of `build_unified_position_table`. -/
def insAbsent (acc : List (Nat × Nat)) (r : Nat × Nat) : List (Nat × Nat) :=
  if (List.lookup r.1 acc).isSome then acc else acc ++ [r]

/-- The `(new-line number, position)` pairs offered to the table during the
walk of `build_unified_position_table`, in walk order, starting the position
counter at `p`. -/
def recsOf : List DiffLine → Nat → List (Nat × Nat)
  | [], _ => []
  | ln :: ls, p =>
    (if ln.tag = '+' ∨ ln.tag = ' ' then
      match ln.new with
      | some nn => [(nn, p + 1)]
      | none => []
    else []) ++ recsOf ls (p + 1)

/-- All records offered while building a patch's position table. -/
def patchRecs (patch : Str) : List (Nat × Nat) := recsOf (allPatchLines patch) 0

/-- A parsed one-Added-line hunk (the parse of `"@@ -1 +1 @@\n+x"`), used by
the `absolute_new_line` counterexample and witnesses. -/
def hplus : Hunk :=
  { header := str "@@ -1 +1 @@", old_start := 1, old_len := 1, new_start := 1, new_len := 1,
    lines := [⟨'+', str "x", none, some 1⟩] }

/-- A hunk text whose header matches the grammar but whose body shows more
Removed/Context lines than `old_len` declares. -/
def c1cex : Str := str "@@ -1 +1 @@\n a\n b"

/-- The parse of `c1cex`. -/
def c1chunk : Hunk :=
  { header := str "@@ -1 +1 @@", old_start := 1, old_len := 1, new_start := 1, new_len := 1,
    lines := [⟨' ', str "a", some 1, some 1⟩, ⟨' ', str "b", some 2, some 2⟩] }

/-- A hunk text whose body is consistent with its header. -/
def c1wit : Str := str "@@ -5,3 +5,5 @@\n a\n b\n+c\n+d\n e"

/-- The parse of `c1wit`. -/
def c1whunk : Hunk :=
  { header := str "@@ -5,3 +5,5 @@", old_start := 5, old_len := 3, new_start := 5, new_len := 5,
    lines := [⟨' ', str "a", some 5, some 5⟩, ⟨' ', str "b", some 6, some 6⟩,
      ⟨'+', str "c", none, some 7⟩, ⟨'+', str "d", none, some 8⟩,
      ⟨' ', str "e", some 7, some 9⟩] }

/-- The parse of `"@@ -3 +7 @@\n x"` — both length fields omitted from the
header. -/
def c9hunk : Hunk :=
  { header := str "@@ -3 +7 @@", old_start := 3, old_len := 1, new_start := 7, new_len := 1,
    lines := [⟨' ', str "x", some 3, some 7⟩] }

/-- The malformed model reply of the recovery claim:
`[` `\x7b` `"type FOO, "comment":"x"` `\x7d` `]` (a `type` key followed
directly by unquoted text). -/
def c4input : Str := str "[\x7b\"type FOO, \"comment\":\"x\"\x7d]"

/-- A filtered comment on `a.py`. -/
def c6a : RComment := ⟨str "a.py", str "@@ -1 +1 @@", str "c1"⟩

/-- A filtered comment on `b.py` (a different grouping key from `c6a`). -/
def c6b : RComment := ⟨str "b.py", str "@@ -1 +1 @@", str "c2"⟩

/-- A patch whose two hunks appear in decreasing new-line order. -/
def c7cex : Str := str "@@ -10 +10 @@\n+x\n@@ -1 +1 @@\n+y"

/-- A patch whose two hunks appear in increasing new-line order. -/
def c7wit : Str := str "@@ -1,2 +1,2 @@\n x\n+y\n@@ -5 +6 @@\n+z"

/-- A source file in which the body of `def f` is exactly lines 2-3. -/
def c5lines : List Str :=
  [str "x = 1", str "def f():", str "    return 1", str "y = 2"]

/-- First-defined choice on options (used to state lookup facts). -/
def orO (x y : Option Nat) : Option Nat :=
  match x with
  | some v => some v
  | none => y

/-! ### Shared lemmas about the hunk-body counters -/

theorem length_rangeL : ∀ (k s : Nat), (rangeL s k).length = k
  | 0, _ => rfl
  | k + 1, s => by simp [rangeL, length_rangeL k (s + 1)]

theorem minL_rangeL : ∀ (k s : Nat), minL (rangeL s (k + 1)) = some s
  | 0, s => rfl
  | k + 1, s => by
    have step : minL (rangeL s (k + 2)) =
        match minL (rangeL (s + 1) (k + 1)) with
        | none => some s
        | some b => some (if s ≤ b then s else b) := rfl
    rw [step, minL_rangeL k (s + 1)]
    show some (if s ≤ s + 1 then s else s + 1) = some s
    rw [if_pos (Nat.le_succ s)]

theorem maxL_rangeL : ∀ (k s : Nat), maxL (rangeL s (k + 1)) = some (s + k)
  | 0, s => rfl
  | k + 1, s => by
    have step : maxL (rangeL s (k + 2)) =
        match maxL (rangeL (s + 1) (k + 1)) with
        | none => some s
        | some b => some (if s ≤ b then b else s) := rfl
    rw [step, maxL_rangeL k (s + 1)]
    show some (if s ≤ s + 1 + k then s + 1 + k else s) = some (s + (k + 1))
    rw [if_pos (by omega : s ≤ s + 1 + k)]
    exact congrArg some (by omega)

/-- The old numbers `parse_diff_hunk` assigns to Removed/Context lines are
consecutive from the starting counter. -/
theorem oldNums_processBody (ls : List Str) :
    ∀ (o n : Nat), oldNums (processBody ls o n) = rangeL o (rcCount ls) := by
  induction ls with
  | nil => intro o n; rfl
  | cons raw rest ih =>
    intro o n
    match raw with
    | [] => simp [processBody, oldNums, rcCount, rangeL, ih (o + 1) (n + 1)]
    | t :: tr =>
      by_cases h1 : t = '+'
      · subst h1; simp [processBody, oldNums, rcCount, rangeL, ih o (n + 1)]
      · by_cases h2 : t = '-'
        · subst h2; simp [processBody, oldNums, rcCount, rangeL, ih (o + 1) n]
        · by_cases h3 : t = ' '
          · subst h3; simp [processBody, oldNums, rcCount, rangeL, ih (o + 1) (n + 1)]
          · simp [processBody, oldNums, rcCount, rangeL, h1, h2, h3, ih (o + 1) (n + 1)]

/-- The new numbers `parse_diff_hunk` assigns to Added/Context lines are
consecutive from the starting counter. -/
theorem newNums_processBody (ls : List Str) :
    ∀ (o n : Nat), newNums (processBody ls o n) = rangeL n (acCount ls) := by
  induction ls with
  | nil => intro o n; rfl
  | cons raw rest ih =>
    intro o n
    match raw with
    | [] => simp [processBody, newNums, acCount, rangeL, ih (o + 1) (n + 1)]
    | t :: tr =>
      by_cases h1 : t = '+'
      · subst h1; simp [processBody, newNums, acCount, rangeL, ih o (n + 1)]
      · by_cases h2 : t = '-'
        · subst h2; simp [processBody, newNums, acCount, rangeL, ih (o + 1) n]
        · by_cases h3 : t = ' '
          · subst h3; simp [processBody, newNums, acCount, rangeL, ih (o + 1) (n + 1)]
          · simp [processBody, newNums, acCount, rangeL, h1, h2, h3, ih (o + 1) (n + 1)]

/-! ### C1 — min/max line numbers versus the declared spans -/

/-- C1 counterexample: the claim quantifies over every hunk text whose header
matches the grammar, but `parse_diff_hunk` never checks the body against the
declared lengths.  For `"@@ -1 +1 @@\n a\n b"` the header declares
`old_len = 1`, yet the two Context lines make the maximum old line number 2,
not `old_start + old_len - 1 = 1`. -/
theorem c1_counterexample :
    parse_diff_hunk c1cex = some c1chunk ∧
    maxL (oldNums c1chunk.lines) = some 2 ∧
    c1chunk.old_start + c1chunk.old_len - 1 = 1 ∧
    maxL (oldNums c1chunk.lines) ≠ some (c1chunk.old_start + c1chunk.old_len - 1) := by
  decide

/-- C1 (amended): for every hunk text parsed by `parse_diff_hunk` whose body
is consistent with its header — the number of Removed/Context lines equals
`old_len ≥ 1` and the number of Added/Context lines equals `new_len ≥ 1` —
the minimum/maximum old line numbers over Removed/Context lines are
`old_start` and `old_start + old_len - 1`, and the minimum/maximum new line
numbers over Added/Context lines are `new_start` and
`new_start + new_len - 1`. -/
theorem c1_minmax_consistent (t : Str) (h : Hunk)
    (hp : parse_diff_hunk t = some h)
    (ho : (oldNums h.lines).length = h.old_len) (ho1 : 1 ≤ h.old_len)
    (hn : (newNums h.lines).length = h.new_len) (hn1 : 1 ≤ h.new_len) :
    minL (oldNums h.lines) = some h.old_start ∧
    maxL (oldNums h.lines) = some (h.old_start + h.old_len - 1) ∧
    minL (newNums h.lines) = some h.new_start ∧
    maxL (newNums h.lines) = some (h.new_start + h.new_len - 1) := by
  simp only [parse_diff_hunk] at hp
  split at hp
  · exact absurd hp (by simp)
  · split at hp
    · exact absurd hp (by simp)
    · rename_i hl rest hfind
      split at hp
      · exact absurd hp (by simp)
      · rename_i a b c d hmatch
        injection hp with hp
        subst hp
        simp only at ho ho1 hn hn1 ⊢
        rw [oldNums_processBody, length_rangeL] at ho
        rw [newNums_processBody, length_rangeL] at hn
        obtain ⟨k, hk⟩ : ∃ k, rcCount rest = k + 1 := ⟨rcCount rest - 1, by omega⟩
        obtain ⟨m, hm⟩ : ∃ m, acCount rest = m + 1 := ⟨acCount rest - 1, by omega⟩
        refine ⟨?_, ?_, ?_, ?_⟩
        · rw [oldNums_processBody, hk, minL_rangeL]
        · rw [oldNums_processBody, hk, maxL_rangeL, ← ho, hk]
          exact congrArg some (by omega)
        · rw [newNums_processBody, hm, minL_rangeL]
        · rw [newNums_processBody, hm, maxL_rangeL, ← hn, hm]
          exact congrArg some (by omega)

/-- C1 witness: the consistent hunk `c1wit` has old span 5-7 and new span
5-9, as the amended theorem computes. -/
theorem c1_minmax_witness :
    parse_diff_hunk c1wit = some c1whunk ∧
    minL (oldNums c1whunk.lines) = some 5 ∧
    maxL (oldNums c1whunk.lines) = some 7 ∧
    minL (newNums c1whunk.lines) = some 5 ∧
    maxL (newNums c1whunk.lines) = some 9 := by
  refine ⟨by decide, ?_⟩
  have := c1_minmax_consistent c1wit c1whunk (by decide) (by decide) (by decide)
    (by decide) (by decide)
  exact this

/-! ### C8 — exactly when parsing fails -/

/-- C8: `parse_diff_hunk` returns the unparseable result `none` exactly when
no line of the input starts with `@@`, or the first such line (stripped) does
not match the header grammar; being a total function of the embedding, no
exception escapes for any input. -/
theorem c8_unparseable_iff (t : Str) :
    parse_diff_hunk t = none ↔
      header_line_of t = none ∨
      ∃ hl, header_line_of t = some hl ∧ hunkReMatch (pyStrip hl) = none := by
  simp only [parse_diff_hunk, header_line_of]
  by_cases ht : t = []
  · subst ht
    simp [splitlinesPy, splitlinesGo, findHeaderSplit]
  · simp only [if_neg ht]
    cases hf : findHeaderSplit (splitlinesPy t) with
    | none => simp [hf]
    | some p =>
      obtain ⟨hl, rest⟩ := p
      cases hm : hunkReMatch (pyStrip hl) with
      | none => simp [hm]
      | some g =>
        obtain ⟨a, b, c, d⟩ := g
        simp [hm]

/-! ### C9 — omitted length fields default to 1 -/

/-- C9: when the matched header omits the old-length group (form `-N`), the
parsed hunk has `old_len = 1`; when it omits the new-length group (form
`+N`), the parsed hunk has `new_len = 1`. -/
theorem c9_omitted_defaults (t : Str) (h : Hunk) (a : Nat) (b : Option Nat)
    (c : Nat) (d : Option Nat)
    (hp : parse_diff_hunk t = some h)
    (hm : hunkReMatch (pyStrip h.header) = some (a, b, c, d)) :
    (b = none → h.old_len = 1) ∧ (d = none → h.new_len = 1) := by
  simp only [parse_diff_hunk] at hp
  split at hp
  · exact absurd hp (by simp)
  · split at hp
    · exact absurd hp (by simp)
    · rename_i hl rest hfind
      split at hp
      · exact absurd hp (by simp)
      · rename_i a0 b0 c0 d0 hmatch
        injection hp with hp
        subst hp
        simp only at hm ⊢
        rw [hmatch] at hm
        simp only [Option.some.injEq, Prod.mk.injEq] at hm
        obtain ⟨h1, h2, h3, h4⟩ := hm
        subst h2 h4
        exact ⟨fun hb => by simp [hb], fun hd => by simp [hd]⟩

/-- C9 witness: the header `@@ -3 +7 @@` omits both length fields, and the
parsed hunk has `old_len = new_len = 1`. -/
theorem c9_witness : c9hunk.old_len = 1 ∧ c9hunk.new_len = 1 :=
  ⟨(c9_omitted_defaults (str "@@ -3 +7 @@\n x") c9hunk 3 none 7 none (by decide)
      (by decide)).1 rfl,
    (c9_omitted_defaults (str "@@ -3 +7 @@\n x") c9hunk 3 none 7 none (by decide)
      (by decide)).2 rfl⟩

/-! ### C10 and C2 — `absolute_new_line` guard and anchoring -/

/-- C10: `absolute_new_line` returns `none` for every hunk — whether or not
it contains Added lines — whenever the predicted reference is not an int
(modelled `none`) or is an int below 1, before any resolution strategy
runs. -/
theorem c10_invalid_reference (h : Hunk) (a : Option Int)
    (ha : a = none ∨ ∃ n : Int, a = some n ∧ n < 1) :
    absolute_new_line h a = none := by
  rcases ha with rfl | ⟨n, rfl, hn⟩
  · rfl
  · simp [absolute_new_line, if_pos hn]

/-- C10 witness: the hunk `hplus` contains an Added line, yet the reference
`0` resolves to `none`. -/
theorem c10_witness :
    (some (0 : Int) = none ∨ ∃ n : Int, some (0 : Int) = some n ∧ n < 1) ∧
    absolute_new_line hplus (some 0) = none :=
  ⟨Or.inr ⟨0, rfl, by decide⟩,
    c10_invalid_reference hplus (some 0) (Or.inr ⟨0, rfl, by decide⟩)⟩

/-- A list whose `any`-search for a productive entry succeeds has a
successful `findSome?`. -/
theorem findSome?_isSome_of_any {α β : Type} (f : α → Option β) :
    ∀ l : List α, l.any (fun e => (f e).isSome) = true → (l.findSome? f).isSome
  | [], h => by simp at h
  | e :: rest, h => by
    rw [List.findSome?_cons]
    cases hf : f e with
    | some b => simp
    | none =>
      simp only [List.any_cons, Bool.or_eq_true, hf, Option.isSome_none] at h
      rcases h with h | h
      · exact absurd h (by simp)
      · exact findSome?_isSome_of_any f rest h

/-- C2 counterexample: the claim promises a non-null result for *every*
reference value once an Added line exists, but for the parsed hunk of
`"@@ -1 +1 @@\n+x"` (one Added line) the reference `0` is rejected by the
guard and `absolute_new_line` returns `none`. -/
theorem c2_counterexample :
    parse_diff_hunk (str "@@ -1 +1 @@\n+x") = some hplus ∧
    hplus.lines.any (fun e => (new_if_add e).isSome) = true ∧
    absolute_new_line hplus (some 0) = none := by
  decide

/-- C2 (amended): for every hunk and every *integer reference `≥ 1`*,
`absolute_new_line` returns a non-null absolute line whenever the hunk
contains an Added line carrying a new-line number — equivalently, for such
references it returns `none` only if no Added line exists to anchor to. -/
theorem c2_locates_with_added (h : Hunk) (n : Int) (hn : 1 ≤ n)
    (hadd : h.lines.any (fun e => (new_if_add e).isSome) = true) :
    absolute_new_line h (some n) ≠ none := by
  have h1 : ¬ n < 1 := by omega
  simp only [absolute_new_line, if_neg h1]
  split
  · simp
  · split
    · simp
    · split
      · simp
      · exact Option.isSome_iff_ne_none.mp
          (findSome?_isSome_of_any new_if_add h.lines hadd)

/-- C2 witness: on the one-Added-line hunk `hplus`, the out-of-range integer
reference `5` still resolves (to the Added line). -/
theorem c2_witness :
    (1 : Int) ≤ 5 ∧ hplus.lines.any (fun e => (new_if_add e).isSome) = true ∧
    absolute_new_line hplus (some 5) ≠ none :=
  ⟨by decide, by decide, c2_locates_with_added hplus 5 (by decide) (by decide)⟩

/-! ### C3 and C4 — staged JSON recovery -/

/-- C3: `parse_model_json_strict` is a total function of the embedding (every
Python exception path is caught and modelled by `none` results of the
stages), and it returns the empty comment list with `parse_fail = True`
exactly when the three strict-parse attempts — on the raw text, on the
isolated array, and on the repaired text — all fail to produce a list of
normalised comments. -/
theorem c3_total_failure_flag (raw : Str) :
    parse_model_json_strict raw = ([], true) ↔
      stageResult raw = none ∧ stageResult (stage13 raw) = none ∧
      stageResult (_fix_type_concat_bug (stage13 raw)) = none := by
  cases h1 : stageResult raw with
  | some l => simp [parse_model_json_strict, h1]
  | none =>
    cases h2 : stageResult (stage13 raw) with
    | some l => simp [parse_model_json_strict, h1, h2]
    | none =>
      cases h3 : stageResult (_fix_type_concat_bug (stage13 raw)) with
      | some l => simp [parse_model_json_strict, h1, h2, h3]
      | none => simp [parse_model_json_strict, h1, h2, h3]

/-- C4: recovering the malformed reply `[⟨"type FOO, "comment":"x"⟩]` (with
braces for the angle brackets) succeeds with `parse_fail = False` and yields
exactly one comment, of category `OTHER`, whose text contains `"FOO"`. -/
theorem c4_type_concat_recovery :
    (parse_model_json_strict c4input).2 = false ∧
    (parse_model_json_strict c4input).1.map (fun nc => nc.ctype) = [str "OTHER"] ∧
    (parse_model_json_strict c4input).1.map (fun nc => commentContains nc (str "FOO")) =
      [true] := by
  refine ⟨by decide, by decide, by decide⟩

/-! ### C6 — singleton-hunk grouping -/

/-- Everything the emission loop keeps belongs to a singleton group. -/
theorem emitLoop_key (all : List RComment) (mx : Nat) :
    ∀ (l : List RComment) (cnt : Nat) (c : RComment),
      c ∈ emitLoop all mx l cnt → countKey all (groupKey c) = 1 := by
  intro l
  induction l with
  | nil => intro cnt c hc; simp [emitLoop] at hc
  | cons e rest ih =>
    intro cnt c hc
    simp only [emitLoop] at hc
    split at hc
    · simp at hc
    · split at hc
      · rcases List.mem_cons.mp hc with rfl | hc
        · assumption
        · exact ih (cnt + 1) c hc
      · exact ih cnt c hc

/-- The emission loop preserves the input order: its output is a sublist. -/
theorem emitLoop_sublist (all : List RComment) (mx : Nat) :
    ∀ (l : List RComment) (cnt : Nat), (emitLoop all mx l cnt).Sublist l := by
  intro l
  induction l with
  | nil => intro cnt; simp [emitLoop]
  | cons e rest ih =>
    intro cnt
    simp only [emitLoop]
    split
    · exact List.nil_sublist _
    · split
      · exact (ih (cnt + 1)).cons₂ e
      · exact (ih cnt).cons e

/-- When the cap cannot bite, the emission loop is exactly the singleton
filter. -/
theorem emitLoop_filter (all : List RComment) (mx : Nat) :
    ∀ (l : List RComment) (cnt : Nat),
      cnt + l.countP (fun c => countKey all (groupKey c) == 1) ≤ mx →
      emitLoop all mx l cnt = l.filter (fun c => countKey all (groupKey c) == 1) := by
  intro l
  induction l with
  | nil => intro cnt h; simp [emitLoop]
  | cons e rest ih =>
    intro cnt h
    rw [List.countP_cons] at h
    simp only [emitLoop]
    by_cases hk : countKey all (groupKey e) = 1
    · have hb : (countKey all (groupKey e) == 1) = true := by simp [hk]
      rw [hb, if_pos rfl] at h
      have hcnt : ¬ mx ≤ cnt := by omega
      rw [if_neg hcnt, if_pos hk, List.filter_cons, if_pos hb]
      exact congrArg (e :: ·) (ih (cnt + 1) (by omega))
    · have hb : ¬ ((countKey all (groupKey e) == 1) = true) := by simp [hk]
      rw [List.filter_cons, if_neg hb]
      rw [Bool.not_eq_true] at hb
      rw [hb, if_neg (by simp)] at h
      by_cases hcnt : mx ≤ cnt
      · rw [if_pos hcnt]
        have h0 : rest.countP (fun c => countKey all (groupKey c) == 1) = 0 := by omega
        rw [List.countP_eq_zero] at h0
        exact (List.filter_eq_nil_iff.mpr h0).symm
      · rw [if_neg hcnt, if_neg hk]
        exact ih cnt (by omega)

/-- C6 counterexample: the claim promises that a comment with a unique
`(path, header)` key is retained, but the emission loop also enforces the
caller's `max_needed` cap: with two distinct singleton comments and
`max_needed = 1` the second unique comment is dropped. -/
theorem c6_counterexample :
    countKey [c6a, c6b] (groupKey c6b) = 1 ∧
    scrape_retained [c6a, c6b] 1 = [c6a] ∧
    c6b ∉ scrape_retained [c6a, c6b] 1 := by
  decide

/-- C6 (amended): over any filtered comment list, (i) every retained comment
has a singleton `(path, header)` key — in particular two comments sharing a
key are both excluded; (ii) the output preserves the input's relative order;
(iii) provided the number of singleton comments does not exceed `max_needed`,
the output is exactly the singleton comments, so every unique-key comment is
retained. -/
theorem c6_singleton_grouping (filtered : List RComment) (mx : Nat) :
    (∀ c ∈ scrape_retained filtered mx, countKey filtered (groupKey c) = 1) ∧
    (scrape_retained filtered mx).Sublist filtered ∧
    (filtered.countP (fun c => countKey filtered (groupKey c) == 1) ≤ mx →
      scrape_retained filtered mx =
        filtered.filter (fun c => countKey filtered (groupKey c) == 1)) :=
  ⟨fun c hc => emitLoop_key filtered mx filtered 0 c hc,
   emitLoop_sublist filtered mx filtered 0,
   fun h => emitLoop_filter filtered mx filtered 0 (by omega)⟩

/-- C6 witness: with a cap that cannot bite, both unique-key comments are
retained, in order. -/
theorem c6_witness :
    [c6a, c6b].countP (fun c => countKey [c6a, c6b] (groupKey c) == 1) ≤ 2 ∧
    scrape_retained [c6a, c6b] 2 =
      [c6a, c6b].filter (fun c => countKey [c6a, c6b] (groupKey c) == 1) :=
  ⟨by decide, (c6_singleton_grouping [c6a, c6b] 2).2.2 (by decide)⟩

/-! ### C7 — the position table -/

theorem orO_none (x : Option Nat) : orO x none = x := by cases x <;> rfl

/-- Appending one record changes a lookup only where the table was
undefined. -/
theorem lookup_append_single (n : Nat) (r : Nat × Nat) :
    ∀ acc : List (Nat × Nat),
      List.lookup n (acc ++ [r]) =
        orO (List.lookup n acc) (if n == r.1 then some r.2 else none)
  | [] => by
    cases hr : n == r.1 <;> simp [List.lookup, hr, orO]
  | (k, v) :: rest => by
    cases hk : n == k <;>
      simp [List.lookup, hk, orO, lookup_append_single n r rest]

/-- Folding `insAbsent` over a record list realises first-occurrence-wins:
a lookup in the result is the first record with the key, unless the
accumulator already had one. -/
theorem lookup_foldl_insAbsent :
    ∀ (rs : List (Nat × Nat)) (acc : List (Nat × Nat)) (n : Nat),
      List.lookup n (List.foldl insAbsent acc rs) =
        orO (List.lookup n acc) (((rs.find? (fun r => r.1 == n)).map (·.2)))
  | [], acc, n => by simp [orO_none]
  | r :: rs, acc, n => by
    rw [List.foldl_cons, lookup_foldl_insAbsent rs (insAbsent acc r) n]
    by_cases hr : (r.1 == n) = true
    · simp only [List.find?, hr, Option.map_some']
      have hrn : r.1 = n := by simpa using hr
      unfold insAbsent
      by_cases ha : (List.lookup r.1 acc).isSome
      · rw [if_pos ha]
        obtain ⟨v, hv⟩ := Option.isSome_iff_exists.mp ha
        rw [hrn] at hv
        rw [hv]
        rfl
      · rw [if_neg ha, lookup_append_single, if_pos (by simp [hrn] : (n == r.1) = true)]
        have hnone : List.lookup n acc = none := by
          rw [← hrn]
          exact Option.not_isSome_iff_eq_none.mp ha
        rw [hnone]
        rfl
    · have hrf : (r.1 == n) = false := by simpa using hr
      simp only [List.find?, hrf]
      unfold insAbsent
      by_cases ha : (List.lookup r.1 acc).isSome
      · rw [if_pos ha]
      · have hne : ¬ ((n == r.1) = true) := by
          simp only [beq_iff_eq] at hr ⊢
          omega
        rw [if_neg ha, lookup_append_single, if_neg hne, orO_none]

/-- Every record offered by the walk starting at position `p` has position
above `p`. -/
theorem recsOf_snd_bound :
    ∀ (l : List DiffLine) (p : Nat), ∀ r ∈ recsOf l p, p < r.2 := by
  intro l
  induction l with
  | nil => simp [recsOf]
  | cons ln ls ih =>
    intro p r hr
    simp only [recsOf] at hr
    rcases List.mem_append.mp hr with h | h
    · by_cases ht : ln.tag = '+' ∨ ln.tag = ' '
      · rw [if_pos ht] at h
        cases hnew : ln.new with
        | some nn =>
          rw [hnew] at h
          simp only [List.mem_singleton] at h
          subst h
          omega
        | none => rw [hnew] at h; simp at h
      · rw [if_neg ht] at h; simp at h
    · have := ih (p + 1) r h
      omega

/-- Positions strictly increase along the record sequence: each body line
advances the counter, records are emitted in walk order. -/
theorem recsOf_snd_pairwise :
    ∀ (l : List DiffLine) (p : Nat),
      List.Pairwise (fun r s : Nat × Nat => r.2 < s.2) (recsOf l p) := by
  intro l
  induction l with
  | nil => simp [recsOf]
  | cons ln ls ih =>
    intro p
    simp only [recsOf]
    apply List.pairwise_append.mpr
    refine ⟨?_, ih (p + 1), ?_⟩
    · by_cases ht : ln.tag = '+' ∨ ln.tag = ' '
      · rw [if_pos ht]
        cases ln.new with
        | some nn => exact List.pairwise_singleton _ _
        | none => exact List.Pairwise.nil
      · rw [if_neg ht]; exact List.Pairwise.nil
    · intro a ha b hb
      have hb' := recsOf_snd_bound ls (p + 1) b hb
      have ha' : a.2 = p + 1 := by
        by_cases ht : ln.tag = '+' ∨ ln.tag = ' '
        · rw [if_pos ht] at ha
          cases hnew : ln.new with
          | some nn =>
            rw [hnew] at ha
            simp only [List.mem_singleton] at ha
            rw [ha]
          | none => rw [hnew] at ha; simp at ha
        · rw [if_neg ht] at ha; simp at ha
      omega

/-- When the recorded keys strictly increase along the walk, the first
records found for two ordered keys have ordered positions. -/
theorem find?_snd_mono :
    ∀ rs : List (Nat × Nat),
      List.Pairwise (fun r s : Nat × Nat => r.1 < s.1) rs →
      List.Pairwise (fun r s : Nat × Nat => r.2 < s.2) rs →
      ∀ (n1 n2 : Nat) (r1 r2 : Nat × Nat),
        rs.find? (fun r => r.1 == n1) = some r1 →
        rs.find? (fun r => r.1 == n2) = some r2 →
        n1 < n2 → r1.2 < r2.2 := by
  intro rs
  induction rs with
  | nil => intro _ _ n1 n2 r1 r2 h1 h2 _; simp at h1
  | cons r rest ih =>
    intro hp1 hp2 n1 n2 r1 r2 h1 h2 hlt
    by_cases e1 : (r.1 == n1) = true
    · simp only [List.find?, e1] at h1
      injection h1 with h1
      subst h1
      have e2 : (r.1 == n2) = false := by
        have hn : r.1 = n1 := by simpa using e1
        simp only [beq_eq_false_iff_ne, ne_eq, hn]
        omega
      simp only [List.find?, e2] at h2
      exact (List.pairwise_cons.mp hp2).1 r2 (List.mem_of_find?_eq_some h2)
    · have e1f : (r.1 == n1) = false := by simpa using e1
      by_cases e2 : (r.1 == n2) = true
      · simp only [List.find?, e2] at h2
        injection h2 with h2
        subst h2
        simp only [List.find?, e1f] at h1
        have hfst := (List.pairwise_cons.mp hp1).1 r1 (List.mem_of_find?_eq_some h1)
        have hn1 : r1.1 = n1 := by simpa using List.find?_some h1
        have hn2 : r.1 = n2 := by simpa using e2
        omega
      · have e2f : (r.1 == n2) = false := by simpa using e2
        simp only [List.find?, e1f] at h1
        simp only [List.find?, e2f] at h2
        exact ih (List.pairwise_cons.mp hp1).2 (List.pairwise_cons.mp hp2).2
          n1 n2 r1 r2 h1 h2 hlt

/-- The live loop of `build_unified_position_table` is the `insAbsent` fold
over the record sequence. -/
theorem posStep_foldl :
    ∀ (l : List DiffLine) (acc : List (Nat × Nat)) (p : Nat),
      (l.foldl posStep (acc, p)).1 = List.foldl insAbsent acc (recsOf l p) := by
  intro l
  induction l with
  | nil => intro acc p; rfl
  | cons ln ls ih =>
    intro acc p
    rw [List.foldl_cons]
    have hstep : posStep (acc, p) ln =
        (List.foldl insAbsent acc
          (if ln.tag = '+' ∨ ln.tag = ' ' then
            match ln.new with
            | some nn => [(nn, p + 1)]
            | none => []
          else []), p + 1) := by
      by_cases ht : ln.tag = '+' ∨ ln.tag = ' '
      · cases hnew : ln.new with
        | some nn => simp [posStep, insAbsent, ht, hnew]
        | none => simp [posStep, ht, hnew]
      · simp [posStep, ht]
    rw [hstep, ih]
    simp only [recsOf]
    rw [List.foldl_append]

/-- The position table as the fold of its record sequence. -/
theorem build_table_eq_fold (patch : Str) :
    build_unified_position_table patch = List.foldl insAbsent [] (patchRecs patch) := by
  by_cases hp : patch = []
  · subst hp
    rfl
  · unfold build_unified_position_table patchRecs
    rw [if_neg hp]
    exact posStep_foldl (allPatchLines patch) [] 0

/-- C7 counterexample: a patch whose hunks arrive in decreasing new-line
order maps the smaller key 1 to the larger position 2 — the table is not
monotone for arbitrary patches. -/
theorem c7_counterexample :
    List.lookup 1 (build_unified_position_table c7cex) = some 2 ∧
    List.lookup 10 (build_unified_position_table c7cex) = some 1 ∧
    (1 : Nat) < 10 ∧ ¬ (2 : Nat) < 1 := by
  decide

/-- C7 (amended): (i) unconditionally, each new-file line number is mapped at
its first occurrence in the walk and never overwritten afterwards (the table
lookup is the first matching record); (ii) provided the walk meets the
recorded new-line numbers in strictly increasing order — true exactly when
the patch's hunks are in increasing new-line order — the table is strictly
monotone. -/
theorem c7_table_first_occurrence_and_monotone (patch : Str) :
    (∀ n : Nat, List.lookup n (build_unified_position_table patch) =
      ((patchRecs patch).find? (fun r => r.1 == n)).map (·.2)) ∧
    (List.Pairwise (fun r s : Nat × Nat => r.1 < s.1) (patchRecs patch) →
      ∀ n1 n2 p1 p2 : Nat, n1 < n2 →
        List.lookup n1 (build_unified_position_table patch) = some p1 →
        List.lookup n2 (build_unified_position_table patch) = some p2 →
        p1 < p2) := by
  constructor
  · intro n
    rw [build_table_eq_fold, lookup_foldl_insAbsent]
    rfl
  · intro hpw n1 n2 p1 p2 hlt h1 h2
    rw [build_table_eq_fold, lookup_foldl_insAbsent] at h1 h2
    have h1' : ((patchRecs patch).find? (fun r => r.1 == n1)).map (·.2) = some p1 := h1
    have h2' : ((patchRecs patch).find? (fun r => r.1 == n2)).map (·.2) = some p2 := h2
    obtain ⟨r1, hr1, hr1v⟩ := Option.map_eq_some'.mp h1'
    obtain ⟨r2, hr2, hr2v⟩ := Option.map_eq_some'.mp h2'
    have hsnd := recsOf_snd_pairwise (allPatchLines patch) 0
    have := find?_snd_mono (patchRecs patch) hpw hsnd n1 n2 r1 r2 hr1 hr2 hlt
    omega

/-- C7 witness: on an in-order two-hunk patch, keys 1 < 6 map to positions
1 < 3. -/
theorem c7_witness :
    List.lookup 1 (build_unified_position_table c7wit) = some 1 ∧
    List.lookup 6 (build_unified_position_table c7wit) = some 3 ∧
    (1 : Nat) < 3 :=
  ⟨by decide, by decide,
    (c7_table_first_occurrence_and_monotone c7wit).2 (by decide) 1 6 1 3 (by decide)
      (by decide) (by decide)⟩

/-! ### C5 — block extraction -/

/-- The backward scan stops at the nearest matching line: if the 0-based line
`i0` matches and no line strictly between `i0` and the scan start matches,
the scan finds `i0` with its indentation. -/
theorem findBack_finds (p : Str → Bool) (ls : List Str) (i0 : Nat)
    (hp : p (ls.getD i0 []) = true) :
    ∀ i, i0 ≤ i → (∀ j, i0 < j → j ≤ i → p (ls.getD j []) = false) →
      findBack p ls i = some (i0, indentOf (ls.getD i0 [])) := by
  intro i
  induction i with
  | zero =>
    intro hi0 _
    have h0 : i0 = 0 := by omega
    subst h0
    simp only [findBack]
    rw [if_pos hp]
  | succ k ih =>
    intro hi0 hj
    by_cases hik : i0 = k + 1
    · subst hik
      simp only [findBack]
      rw [if_pos hp]
    · have h1 : p (ls.getD (k + 1) []) = false := hj (k + 1) (by omega) (by omega)
      simp only [findBack]
      rw [if_neg (by rw [h1]; exact Bool.false_ne_true)]
      exact ih (by omega) (fun j hj1 hj2 => hj j hj1 (by omega))

/-- The forward scan walks exactly to the last line of the block: as long as
every line after the start and up to 0-based `bidx` is blank or
deeper-indented, and line `bidx + 1` (when it exists) is a non-blank,
non-decorator line at or above the start's indentation, the scan returns
`bidx`. -/
theorem fwdLoop_reaches (ls : List Str) (aind bidx : Nat)
    (hlen : bidx + 1 ≤ ls.length)
    (hterm : bidx + 1 < ls.length →
      pyStrip (ls.getD (bidx + 1) []) ≠ [] ∧
      indentOf (ls.getD (bidx + 1) []) ≤ aind ∧
      startsWithL (str "@") (pyLstrip (ls.getD (bidx + 1) [])) = false) :
    ∀ m k, bidx + 1 - k = m → k ≤ bidx + 1 →
      (∀ j, k ≤ j → j ≤ bidx →
        pyStrip (ls.getD j []) = [] ∨ aind < indentOf (ls.getD j [])) →
      fwdLoop ls aind k (k - 1) = bidx := by
  intro m
  induction m with
  | zero =>
    intro k hk0 hk1 _
    have hkb : k = bidx + 1 := by omega
    subst hkb
    rw [fwdLoop]
    by_cases hb : bidx + 1 < ls.length
    · rw [if_pos hb]
      obtain ⟨h1, h2, h3⟩ := hterm hb
      rw [if_neg h1, if_pos ⟨h2, by rw [h3]; exact Bool.false_ne_true⟩]
      omega
    · rw [if_neg hb]
      omega
  | succ m ih =>
    intro k hkm hk1 hmid
    have hkb : k ≤ bidx := by omega
    have hklen : k < ls.length := by omega
    rw [fwdLoop, if_pos hklen]
    by_cases hblank : pyStrip (ls.getD k []) = []
    · rw [if_pos hblank]
      have := ih (k + 1) (by omega) (by omega) (fun j hj1 hj2 => hmid j (by omega) hj2)
      simpa using this
    · rw [if_neg hblank]
      have hdeep : aind < indentOf (ls.getD k []) := by
        rcases hmid k (le_refl k) hkb with h | h
        · exact absurd h hblank
        · exact h
      rw [if_neg (by intro hc; exact absurd hc.1 (by omega))]
      have := ih (k + 1) (by omega) (by omega) (fun j hj1 hj2 => hmid j (by omega) hj2)
      simpa using this

/-- `buildBlock` applied where the forward scan ends at `bidx` and the block
fits the size bound. -/
theorem buildBlock_spec (old_lines : List Str) (astart aind bidx : Nat)
    (hfwd : fwdLoop old_lines aind (astart + 1) astart = bidx)
    (hsize : bidx + 1 - astart ≤ MAX_DEF_BLOCK_LINES) :
    buildBlock old_lines astart aind =
      some (joinNl ((old_lines.drop astart).take (bidx + 1 - astart))) := by
  unfold buildBlock
  simp only [hfwd]
  have hblen : ((old_lines.drop astart).take (bidx + 1 - astart)).length ≤
      bidx + 1 - astart := by
    rw [List.length_take]
    exact min_le_left _ _
  rw [if_neg (by omega)]

/-- C5: when the lines `[a, b]` (1-based) form exactly a `def` block — line
`a` opens a function definition, the lines strictly inside are blank or
deeper-indented and open no nested definition, the line after `b` (if any)
closes the block, and the block fits `MAX_DEF_BLOCK_LINES` — then
`extract_block_definition` at any anchor inside `[a, b]` returns exactly
lines `a` through `b`, joined. -/
theorem c5_block_extraction (old_lines : List Str) (a b anchor : Nat)
    (h1 : 1 ≤ a) (h2 : a ≤ anchor) (h3 : anchor ≤ b) (h4 : b ≤ old_lines.length)
    (hdef : isDefLine (old_lines.getD (a - 1) []) = true)
    (hin : ∀ i, a < i → i ≤ b →
      (pyStrip (old_lines.getD (i - 1) []) = [] ∨
        indentOf (old_lines.getD (a - 1) []) < indentOf (old_lines.getD (i - 1) [])) ∧
      isDefLine (old_lines.getD (i - 1) []) = false)
    (hafter : b < old_lines.length →
      pyStrip (old_lines.getD b []) ≠ [] ∧
      indentOf (old_lines.getD b []) ≤ indentOf (old_lines.getD (a - 1) []) ∧
      startsWithL (str "@") (pyLstrip (old_lines.getD b [])) = false)
    (hsize : b + 1 - a ≤ MAX_DEF_BLOCK_LINES) :
    extract_block_definition old_lines anchor =
      some (joinNl ((old_lines.drop (a - 1)).take (b + 1 - a))) := by
  have hne : old_lines ≠ [] := by
    intro hc
    rw [hc] at h4
    simp at h4
    omega
  have hclamp : clamp_line anchor 1 old_lines.length = anchor := by
    unfold clamp_line
    have hle : anchor ≤ old_lines.length := by omega
    rw [if_pos hle, if_pos (by omega)]
  have hfb : findBack isDefLine old_lines (anchor - 1) =
      some (a - 1, indentOf (old_lines.getD (a - 1) [])) := by
    apply findBack_finds isDefLine old_lines (a - 1) hdef (anchor - 1) (by omega)
    intro j hj1 hj2
    have := (hin (j + 1) (by omega) (by omega)).2
    simpa using this
  have hb1 : b - 1 + 1 = b := by omega
  have hfwd : fwdLoop old_lines (indentOf (old_lines.getD (a - 1) [])) (a - 1 + 1) (a - 1) =
      b - 1 := by
    have := fwdLoop_reaches old_lines (indentOf (old_lines.getD (a - 1) [])) (b - 1)
      (by omega)
      (by rw [hb1]; exact hafter)
      (b - 1 + 1 - (a - 1 + 1)) (a - 1 + 1) rfl (by omega)
      (fun j hj1 hj2 => by
        have := (hin (j + 1) (by omega) (by omega)).1
        simpa using this)
    calc fwdLoop old_lines (indentOf (old_lines.getD (a - 1) [])) (a - 1 + 1) (a - 1)
        = fwdLoop old_lines (indentOf (old_lines.getD (a - 1) [])) (a - 1 + 1)
            (a - 1 + 1 - 1) := by norm_num
      _ = b - 1 := this
  unfold extract_block_definition
  rw [if_neg hne, hclamp, hfb]
  show buildBlock old_lines (a - 1) (indentOf (old_lines.getD (a - 1) [])) = _
  rw [buildBlock_spec old_lines (a - 1) (indentOf (old_lines.getD (a - 1) [])) (b - 1) hfwd
      (by omega)]
  have harith : b - 1 + 1 - (a - 1) = b + 1 - a := by omega
  rw [harith]

/-- C5 witness: in `c5lines` the body of `def f` is exactly lines 2-3, and
extraction at anchor 3 returns exactly those lines. -/
theorem c5_witness :
    isDefLine (c5lines.getD 1 []) = true ∧
    extract_block_definition c5lines 3 =
      some (joinNl ((c5lines.drop 1).take 2)) := by
  refine ⟨by decide, ?_⟩
  have := c5_block_extraction c5lines 2 3 3 (by decide) (by decide) (by decide) (by decide)
    (by decide)
    (fun i hi1 hi2 => by
      have h3 : i = 3 := by omega
      subst h3
      exact ⟨by decide, by decide⟩)
    (fun _ => ⟨by decide, by decide, by decide⟩)
    (by decide)
  simpa using this

end LiteReviewer


